import Mathlib

/-!
# Verification of the `rag-basic` vector store and RAG pipeline

Shallow embedding of `src/vector_store.py` and `src/rag_pipeline.py`.

Modelling conventions:
* A chunk is a `String`; an embedding vector is a `List ℚ`.
* The sentence-transformer model (`self.model`, an external collaborator) is an
  opaque function `String → List ℚ`; `model.encode` on a batch maps it over the
  list.  `sentence_transformers.util.cos_sim` (an external library function) is
  likewise an opaque scoring function `List ℚ → List ℚ → ℚ`.
* The on-disk cache directory is a state value threaded explicitly: an
  association list from cache-file path to the pickled `(chunks, embeddings)`
  pair, most recent write first.  A failed `load` (Python `FileNotFoundError`)
  is `none`.
* `torch.Tensor.topk(k)` raises when `k` exceeds the number of scores, so
  `retrieve_top_k` returns an `Option`, `none` modelling the raised error.
-/

namespace RagBasic

/-- A pickled cache entry: the ordered chunks of one document together with the
matrix of their embeddings, row `i` for chunk `i`. -/
structure Entry where
  chunks : List String
  embeddings : List (List ℚ)
  deriving DecidableEq, Repr

/-- The `VectorStore` object: its sentence-transformer model (opaque external
collaborator, `__init__` line `self.model = SentenceTransformer(...)`) and its
cache directory. -/
structure VectorStore where
  model : String → List ℚ
  cache_dir : String

/-- The contents of the cache directory: association list from file path to
pickled entry, most recent write first. -/
abbrev CacheState : Type := List (String × Entry)

/-- Writing a pickle file (`pickle.dump` under `open(cache_file, "wb")`):
overwrites any previous entry at that path because reads take the most recent
write. -/
def fsWrite (st : CacheState) (path : String) (e : Entry) : CacheState :=
  (path, e) :: st

/-- Reading a pickle file (`os.path.exists` + `pickle.load`): `none` when the
file does not exist. -/
def fsRead (st : CacheState) (path : String) : Option Entry :=
  (st.find? (fun p => p.1 == path)).map Prod.snd

/-- Python `os.path.splitext(name)[0]` for a bare filename: everything before
the last dot, except that a run of leading dots never starts an extension
(`splitext(".bashrc") = (".bashrc", "")`). -/
def splitext_base (name : String) : String :=
  let cs := name.toList
  let lead := (cs.takeWhile (fun c => c = '.')).length
  let rest := cs.drop lead
  match rest.reverse.findIdx? (fun c => c = '.') with
  | none => name
  | some j => String.mk (cs.take (lead + (rest.length - 1 - j)))

/-- `VectorStore.get_cache_path`: strip the extension from the PDF name and
append `.pkl` under the cache directory. -/
def get_cache_path (vs : VectorStore) (pdf_name : String) : String :=
  vs.cache_dir ++ "/" ++ splitext_base pdf_name ++ ".pkl"

/-- `VectorStore.clear`: delete the cache directory and recreate it empty. -/
def clear (_vs : VectorStore) (_st : CacheState) : CacheState := []

/-- `VectorStore.create`: encode the chunks with the model (one batched
`model.encode` call) and pickle `(chunks, embeddings)` to the cache file. -/
def create (vs : VectorStore) (st : CacheState) (pdf_name : String)
    (chunks : List String) : CacheState :=
  fsWrite st (get_cache_path vs pdf_name) ⟨chunks, chunks.map vs.model⟩

/-- `VectorStore.load`: read the pickled `(chunks, embeddings)` for the PDF;
`none` models the raised `FileNotFoundError` when the cache file is missing. -/
def load (vs : VectorStore) (st : CacheState) (pdf_name : String) : Option Entry :=
  fsRead st (get_cache_path vs pdf_name)

/-- `VectorStore.fetch`: try `load`; on `FileNotFoundError`, `create` then
`load` again.  Returns the updated state, the entry returned, and the number of
`model.encode` invocations performed (0 on a cache hit, 1 on a miss).  The
`getD` default is unreachable: a load directly after a create succeeds. -/
def fetch (vs : VectorStore) (st : CacheState) (pdf_name : String)
    (chunks : List String) : CacheState × Entry × Nat :=
  match load vs st pdf_name with
  | some e => (st, e, 0)
  | none =>
      let st2 := create vs st pdf_name chunks
      (st2, (load vs st2 pdf_name).getD ⟨[], []⟩, 1)

/-- The eligibility filter of `fetch_all` and `reset`:
`file.lower().endswith(".pdf")`, expressed on the character sequence: lowercase
the filename and test for the suffix `.pdf`. -/
def endsWithPdf (file : String) : Bool :=
  ['.', 'p', 'd', 'f'].isSuffixOf (file.toList.map Char.toLower)

/-- Modelled from the spec: the Text Chunker collaborator.  `src/pdf_loader.py`
(functions `load_pdf` and `chunk_text_simple`) is not available; per the spec
it "extracts raw text from a PDF and splits it into a sequence of text
chunks", so it is an opaque function from a file path to the chunk list. -/
abbrev Chunker : Type := String → List String

/-- The accumulation loop of `VectorStore.fetch_all` over `os.listdir`'s file
list: for each file with a case-insensitive `.pdf` suffix, chunk it, `fetch`
from cache (or create), extend `all_chunks` and append the embedding block to
`all_embeddings`.  Returns the final state, `all_chunks` and `all_embeddings`
(a list of per-document blocks, in enumeration order). -/
def fetch_all_loop (vs : VectorStore) (chunker : Chunker) (pdf_folder : String)
    (st : CacheState) : List String → CacheState × List String × List (List (List ℚ))
  | [] => (st, [], [])
  | file :: rest =>
    if endsWithPdf file then
      let chunks := chunker (pdf_folder ++ "/" ++ file)
      let fr := fetch vs st file chunks
      let tail := fetch_all_loop vs chunker pdf_folder fr.1 rest
      (tail.1, fr.2.1.chunks ++ tail.2.1, fr.2.1.embeddings :: tail.2.2)
    else fetch_all_loop vs chunker pdf_folder st rest

/-- `VectorStore.fetch_all`: run the loop over the folder's file list, then
raise `ValueError("No valid PDFs found...")` — modelled as `none` — when
`all_chunks` is empty; otherwise `torch.cat` the embedding blocks (list
`join`) and return `(all_chunks, combined_embeddings)`. -/
def fetch_all (vs : VectorStore) (chunker : Chunker) (pdf_folder : String)
    (st : CacheState) (files : List String) :
    CacheState × Option (List String × List (List ℚ)) :=
  let r := fetch_all_loop vs chunker pdf_folder st files
  if r.2.1.isEmpty then (r.1, none)
  else (r.1, some (r.2.1, r.2.2.flatten))

/-- One step of `torch.Tensor.topk`'s selection: remove the first pair holding
a maximal score from an (index, score) list, returning it and the remaining
pairs; `none` on the empty list. -/
def pickMax : List (Nat × ℚ) → Option ((Nat × ℚ) × List (Nat × ℚ))
  | [] => none
  | p :: ps =>
    match pickMax ps with
    | none => some (p, ps)
    | some (q, rest) => if p.2 < q.2 then some (q, p :: rest) else some (p, ps)

/-- `torch.Tensor.topk(k)` on an (index, score) list: the `k` pairs with the
highest scores, in descending score order (`sorted=True`), ties broken towards
the earlier index.  The `none` branch is unreachable when `k` is at most the
list length. -/
def topkPairs : Nat → List (Nat × ℚ) → List (Nat × ℚ)
  | 0, _ => []
  | k + 1, l =>
    match pickMax l with
    | none => []
    | some (q, rest) => q :: topkPairs k rest

/-- The similarity scores of `retrieve_top_k`:
`util.cos_sim(query_embedding, embeddings)[0]`, one score per embedding row. -/
def simScores (vs : VectorStore) (cos_sim : List ℚ → List ℚ → ℚ)
    (embeddings : List (List ℚ)) (query : String) : List ℚ :=
  embeddings.map (cos_sim (vs.model query))

/-- `VectorStore.retrieve_top_k`: embed the query, score every embedding row by
`util.cos_sim` (opaque collaborator `cos_sim`), take `scores.topk(k)[1]` and
return the chunks at those indices.  `torch.topk` raises a `RuntimeError` when
`k` exceeds the number of scores: that is the `none` result.  Out-of-range
chunk indexing (pool with fewer chunks than embedding rows) is modelled by the
`getD` default. -/
def retrieve_top_k (vs : VectorStore) (cos_sim : List ℚ → List ℚ → ℚ)
    (chunks : List String) (embeddings : List (List ℚ)) (query : String)
    (k : Nat := 3) : Option (List String) :=
  let scores := simScores vs cos_sim embeddings query
  if k ≤ scores.length then
    let top_indices := (topkPairs k scores.enum).map Prod.fst
    some (top_indices.map (fun i => chunks.getD i ""))
  else none

/-- The `RAGChat` object of `src/rag_pipeline.py` after construction: the
vector store and the corpus pool (`self.chunks`, `self.embeddings`) built by
`fetch_all`. -/
structure RAGChat where
  vstore : VectorStore
  chunks : List String
  embeddings : List (List ℚ)

/-- `RAGChat.ask`: retrieve the top-k chunks for the question, join them with a
blank line (`"\n\n".join`), and return `query_openrouter(question, context)`
verbatim.  `query_openrouter` (`src/openrouter_api.py`, the external
answer-generation collaborator, not available in the sources) is an opaque
function of `(question, context)`. -/
def RAGChat.ask (rc : RAGChat) (cos_sim : List ℚ → List ℚ → ℚ)
    (query_openrouter : String → String → String) (question : String)
    (top_k : Nat := 3) : Option String :=
  match retrieve_top_k rc.vstore cos_sim rc.chunks rc.embeddings question top_k with
  | none => none
  | some top_chunks =>
      some (query_openrouter question (String.intercalate "\n\n" top_chunks))

/-! ## Cache store lemmas -/

/-- Reading a path straight after writing it returns the written entry. -/
theorem fsRead_fsWrite_self (st : CacheState) (path : String) (e : Entry) :
    fsRead (fsWrite st path e) path = some e := by
  simp [fsRead, fsWrite, List.find?_cons]

/-- `load` straight after `create` returns the created entry: the chunks as
given and their embeddings in matching order. -/
theorem load_create_self (vs : VectorStore) (st : CacheState) (name : String)
    (chunks : List String) :
    load vs (create vs st name chunks) name
      = some ⟨chunks, chunks.map vs.model⟩ := by
  simp [load, create, fsRead_fsWrite_self]

/-- A loaded entry is one of the entries stored in the cache state. -/
theorem load_mem (vs : VectorStore) (st : CacheState) (name : String)
    {e : Entry} (h : load vs st name = some e) :
    ∃ p ∈ st, p.2 = e := by
  simp only [load, fsRead, Option.map_eq_some'] at h
  obtain ⟨p, hp, rfl⟩ := h
  exact ⟨p, List.mem_of_find?_eq_some hp, rfl⟩

/-! ## Concrete instances used by witnesses -/

/-- A concrete vector store for witnesses: every text embeds to `[1]`. -/
def vsW : VectorStore := ⟨fun _ => [(1 : ℚ)], "data/cache"⟩

/-- A concrete chunker for witnesses. -/
def chunkerW : Chunker := fun _ => ["ch"]

/-- A concrete scoring function for witnesses: the first coordinate of the
embedding row. -/
def headScore (_a b : List ℚ) : ℚ := b.getD 0 0

/-! ## Claims about the cache store -/

/-- C3: `create` computes the embeddings `E` of the chunks `C` and pickles
`(C, E)`; a subsequent `load` of the same key returns exactly `(C, E)`: the
same chunks in the same order and the matching embedding rows in the same
order (round-trip law). -/
theorem create_then_load_roundtrip (vs : VectorStore) (st : CacheState)
    (pdf_name : String) (C : List String) :
    load vs (create vs st pdf_name C) pdf_name
      = some ⟨C, C.map vs.model⟩ :=
  load_create_self vs st pdf_name C

/-- C2: on a cache miss, the first `fetch` performs exactly one batched
embedding-model invocation, saves, and returns the freshly loaded entry; a
second `fetch` with the same key and fallback chunks is a pure cache hit that
returns the same persisted entry with zero model invocations — one invocation
across the two calls. -/
theorem fetch_twice_encodes_once (vs : VectorStore) (st : CacheState)
    (pdf_name : String) (chunks : List String)
    (hmiss : load vs st pdf_name = none) :
    (fetch vs st pdf_name chunks).2.2 = 1 ∧
    (fetch vs st pdf_name chunks).2.1 = ⟨chunks, chunks.map vs.model⟩ ∧
    load vs (fetch vs st pdf_name chunks).1 pdf_name
      = some (fetch vs st pdf_name chunks).2.1 ∧
    fetch vs (fetch vs st pdf_name chunks).1 pdf_name chunks
      = ((fetch vs st pdf_name chunks).1, (fetch vs st pdf_name chunks).2.1, 0) := by
  simp [fetch, hmiss, load_create_self]

/-- Witness for C2 at a concrete input: empty cache, key `a.pdf`. -/
theorem fetch_twice_encodes_once_witness :
    load vsW [] "a.pdf" = none ∧
    ((fetch vsW [] "a.pdf" ["x"]).2.2 = 1 ∧
     (fetch vsW [] "a.pdf" ["x"]).2.1 = ⟨["x"], ["x"].map vsW.model⟩ ∧
     load vsW (fetch vsW [] "a.pdf" ["x"]).1 "a.pdf"
       = some (fetch vsW [] "a.pdf" ["x"]).2.1 ∧
     fetch vsW (fetch vsW [] "a.pdf" ["x"]).1 "a.pdf" ["x"]
       = ((fetch vsW [] "a.pdf" ["x"]).1, (fetch vsW [] "a.pdf" ["x"]).2.1, 0)) :=
  ⟨rfl, fetch_twice_encodes_once vsW [] "a.pdf" ["x"] rfl⟩

/-- C8: when the cache entry for a key exists, `fetch` returns it unchanged,
performs no embedding work, and its result does not depend on the fallback
chunks: fresh document content passed in is discarded in favour of the cached
entry. -/
theorem fetch_hit_ignores_fallback (vs : VectorStore) (st : CacheState)
    (pdf_name : String) (e : Entry) (hhit : load vs st pdf_name = some e)
    (c1 c2 : List String) :
    fetch vs st pdf_name c1 = (st, e, 0) ∧
    fetch vs st pdf_name c1 = fetch vs st pdf_name c2 := by
  simp [fetch, hhit]

/-- Witness for C8 at a concrete input: a cached key fetched with two
different fallback chunk lists. -/
theorem fetch_hit_ignores_fallback_witness :
    load vsW (create vsW [] "a.pdf" ["old"]) "a.pdf"
      = some ⟨["old"], ["old"].map vsW.model⟩ ∧
    (fetch vsW (create vsW [] "a.pdf" ["old"]) "a.pdf" ["new1"]
       = (create vsW [] "a.pdf" ["old"], ⟨["old"], ["old"].map vsW.model⟩, 0) ∧
     fetch vsW (create vsW [] "a.pdf" ["old"]) "a.pdf" ["new1"]
       = fetch vsW (create vsW [] "a.pdf" ["old"]) "a.pdf" ["new2"]) :=
  ⟨by decide,
   fetch_hit_ignores_fallback vsW (create vsW [] "a.pdf" ["old"]) "a.pdf"
     ⟨["old"], ["old"].map vsW.model⟩ (by decide) ["new1"] ["new2"]⟩

/-- C6: after `clear`, loading any previously cached key fails with
`FileNotFoundError` (no stale data), and the store is a valid empty state:
a new `create` for the key succeeds and is loadable. -/
theorem clear_then_load_fails (vs : VectorStore) (st : CacheState)
    (pdf_name : String) (_hprev : ∃ e, load vs st pdf_name = some e) :
    load vs (clear vs st) pdf_name = none ∧
    ∀ C : List String,
      load vs (create vs (clear vs st) pdf_name C) pdf_name
        = some ⟨C, C.map vs.model⟩ := by
  exact ⟨rfl, fun C => load_create_self vs (clear vs st) pdf_name C⟩

/-- Witness for C6 at a concrete input: clear a store that caches `a.pdf`. -/
theorem clear_then_load_fails_witness :
    (∃ e, load vsW (create vsW [] "a.pdf" ["old"]) "a.pdf" = some e) ∧
    (load vsW (clear vsW (create vsW [] "a.pdf" ["old"])) "a.pdf" = none ∧
     ∀ C : List String,
       load vsW (create vsW (clear vsW (create vsW [] "a.pdf" ["old"])) "a.pdf" C) "a.pdf"
         = some ⟨C, C.map vsW.model⟩) :=
  ⟨⟨⟨["old"], ["old"].map vsW.model⟩, by decide⟩,
   clear_then_load_fails vsW (create vsW [] "a.pdf" ["old"]) "a.pdf"
     ⟨⟨["old"], ["old"].map vsW.model⟩, by decide⟩⟩

/-! ## Corpus pool invariants (`fetch_all`) -/

/-- The per-document invariant of a cache entry: as many chunks as embedding
rows. -/
def entryInv (e : Entry) : Prop :=
  e.chunks.length = e.embeddings.length

/-- Every entry persisted in the cache satisfies the per-document invariant. -/
def stateInv (st : CacheState) : Prop :=
  ∀ p ∈ st, entryInv p.2

/-- A freshly created entry satisfies the invariant, and `create` preserves the
state invariant. -/
theorem stateInv_create (vs : VectorStore) (st : CacheState) (name : String)
    (chunks : List String) (hinv : stateInv st) :
    stateInv (create vs st name chunks) := by
  intro p hp
  rcases List.mem_cons.mp hp with h | h
  · subst h; simp [entryInv]
  · exact hinv p h

/-- On an invariant state, `fetch` returns an entry satisfying the
per-document invariant and preserves the state invariant. -/
theorem fetch_entryInv (vs : VectorStore) (st : CacheState) (name : String)
    (chunks : List String) (hinv : stateInv st) :
    entryInv (fetch vs st name chunks).2.1 ∧
    stateInv (fetch vs st name chunks).1 := by
  rcases h : load vs st name with _ | e
  · have hload := load_create_self vs st name chunks
    constructor
    · simp only [fetch, h, hload, Option.getD_some]
      simp [entryInv]
    · simp only [fetch, h]
      exact stateInv_create vs st name chunks hinv
  · obtain ⟨p, hp, hpe⟩ := load_mem vs st name h
    simp only [fetch, h]
    exact ⟨hpe ▸ hinv p hp, hinv⟩

/-- Structure of the `fetch_all` loop output: the accumulated chunks and the
accumulated embedding blocks come from one list of per-document entries, in
enumeration order, each satisfying the per-document invariant; the state
invariant is preserved. -/
theorem fetch_all_loop_spec (vs : VectorStore) (chunker : Chunker)
    (pdf_folder : String) :
    ∀ (files : List String) (st : CacheState), stateInv st →
      ∃ es : List Entry,
        (fetch_all_loop vs chunker pdf_folder st files).2.1
          = (es.map Entry.chunks).flatten ∧
        (fetch_all_loop vs chunker pdf_folder st files).2.2
          = es.map Entry.embeddings ∧
        (∀ e ∈ es, entryInv e) ∧
        stateInv (fetch_all_loop vs chunker pdf_folder st files).1 := by
  intro files
  induction files with
  | nil => exact fun st hinv => ⟨[], rfl, rfl, by simp, hinv⟩
  | cons file rest ih =>
    intro st hinv
    by_cases hpdf : endsWithPdf file
    · obtain ⟨he, hst⟩ :=
        fetch_entryInv vs st file (chunker (pdf_folder ++ "/" ++ file)) hinv
      obtain ⟨es, hc, hb, hes, hst'⟩ :=
        ih (fetch vs st file (chunker (pdf_folder ++ "/" ++ file))).1 hst
      refine ⟨(fetch vs st file (chunker (pdf_folder ++ "/" ++ file))).2.1 :: es,
        ?_, ?_, ?_, ?_⟩
      · simp only [fetch_all_loop, if_pos hpdf, List.map_cons, List.flatten_cons, hc]
      · simp only [fetch_all_loop, if_pos hpdf, List.map_cons, hb]
      · intro e he'
        rcases List.mem_cons.mp he' with h | h
        · exact h ▸ he
        · exact hes e h
      · simp only [fetch_all_loop, if_pos hpdf]
        exact hst'
    · obtain ⟨es, hc, hb, hes, hst'⟩ := ih st hinv
      exact ⟨es, by simp only [fetch_all_loop, if_neg hpdf]; exact hc,
        by simp only [fetch_all_loop, if_neg hpdf]; exact hb, hes,
        by simp only [fetch_all_loop, if_neg hpdf]; exact hst'⟩

/-- When no file passes the `.pdf` filter, the loop accumulates nothing and
leaves the cache untouched. -/
theorem fetch_all_loop_no_eligible (vs : VectorStore) (chunker : Chunker)
    (pdf_folder : String) :
    ∀ (files : List String) (st : CacheState),
      files.filter endsWithPdf = [] →
      fetch_all_loop vs chunker pdf_folder st files = (st, [], []) := by
  intro files
  induction files with
  | nil => intro st _; rfl
  | cons file rest ih =>
    intro st hfil
    have hnot : ¬ endsWithPdf file := by
      intro h
      have := List.filter_eq_nil_iff.mp hfil file (List.mem_cons_self file rest)
      exact this h
    have hrest : rest.filter endsWithPdf = [] := by
      rwa [List.filter_cons, if_neg hnot] at hfil
    simp only [fetch_all_loop, if_neg hnot]
    exact ih st hrest

/-- Chunk-count / row-count balance of the aggregated pool. -/
theorem flatten_length_balance (es : List Entry) (h : ∀ e ∈ es, entryInv e) :
    ((es.map Entry.chunks).flatten).length
      = ((es.map Entry.embeddings).flatten).length := by
  induction es with
  | nil => rfl
  | cons e rest ih =>
    simp only [List.map_cons, List.flatten_cons, List.length_append]
    rw [h e (List.mem_cons_self e rest),
      ih (fun x hx => h x (List.mem_cons_of_mem e hx))]

/-- A successful `fetch_all` returns exactly the loop accumulator: the
accumulated chunks and the flattened embedding blocks. -/
theorem fetch_all_some_eq (vs : VectorStore) (chunker : Chunker)
    (pdf_folder : String) (st : CacheState) (files : List String) :
    ∀ r, (fetch_all vs chunker pdf_folder st files).2 = some r →
      r = ((fetch_all_loop vs chunker pdf_folder st files).2.1,
           (fetch_all_loop vs chunker pdf_folder st files).2.2.flatten) := by
  intro r hr
  simp only [fetch_all] at hr
  by_cases hemp : (fetch_all_loop vs chunker pdf_folder st files).2.1.isEmpty
  · rw [if_pos hemp] at hr; exact absurd hr (by simp)
  · rw [if_neg hemp] at hr
    exact (Option.some_inj.mp hr).symm

/-- C5: `fetch_all` fails (raises `ValueError`, modelled `none`) exactly when
the folder yields zero case-insensitive-`.pdf` files or the chunk sequence
accumulated across all eligible files is empty; otherwise it returns the
accumulated chunks and the stacked embedding blocks without error. -/
theorem fetch_all_empty_corpus (vs : VectorStore) (chunker : Chunker)
    (pdf_folder : String) (st : CacheState) (files : List String) :
    ((fetch_all vs chunker pdf_folder st files).2 = none ↔
      (files.filter endsWithPdf = [] ∨
        (fetch_all_loop vs chunker pdf_folder st files).2.1 = [])) ∧
    ∀ r, (fetch_all vs chunker pdf_folder st files).2 = some r →
      r = ((fetch_all_loop vs chunker pdf_folder st files).2.1,
           (fetch_all_loop vs chunker pdf_folder st files).2.2.flatten) := by
  constructor
  · constructor
    · intro hnone
      right
      simp only [fetch_all] at hnone
      by_cases hemp : (fetch_all_loop vs chunker pdf_folder st files).2.1.isEmpty
      · exact List.isEmpty_iff.mp hemp
      · rw [if_neg hemp] at hnone; exact absurd hnone (by simp)
    · intro h
      have hemp : (fetch_all_loop vs chunker pdf_folder st files).2.1 = [] := by
        rcases h with h | h
        · rw [fetch_all_loop_no_eligible vs chunker pdf_folder files st h]
        · exact h
      simp only [fetch_all, hemp, List.isEmpty_nil, if_pos]
  · exact fetch_all_some_eq vs chunker pdf_folder st files

/-- C7: whenever `fetch_all` succeeds on a cache whose entries all satisfy the
per-document invariant, the corpus pool it returns has as many chunks as
embedding rows, and both are the concatenation of per-document blocks in the
same enumeration order. -/
theorem fetch_all_pool_invariant (vs : VectorStore) (chunker : Chunker)
    (pdf_folder : String) (st : CacheState) (files : List String)
    (c : List String) (e : List (List ℚ)) (hinv : stateInv st)
    (h : (fetch_all vs chunker pdf_folder st files).2 = some (c, e)) :
    c.length = e.length ∧
    ∃ es : List Entry,
      c = (es.map Entry.chunks).flatten ∧
      e = (es.map Entry.embeddings).flatten ∧
      ∀ x ∈ es, x.chunks.length = x.embeddings.length := by
  obtain ⟨es, hc, hb, hes, _⟩ :=
    fetch_all_loop_spec vs chunker pdf_folder files st hinv
  have hr := fetch_all_some_eq vs chunker pdf_folder st files (c, e) h
  have hce : c = (fetch_all_loop vs chunker pdf_folder st files).2.1 :=
    congrArg Prod.fst hr
  have hee : e = (fetch_all_loop vs chunker pdf_folder st files).2.2.flatten :=
    congrArg Prod.snd hr
  refine ⟨?_, es, ?_, ?_, fun x hx => hes x hx⟩
  · rw [hce, hee, hc, hb]
    exact flatten_length_balance es hes
  · rw [hce, hc]
  · rw [hee, hb]

/-- Witness for C7 at a concrete input: one PDF, empty invariant cache. -/
theorem fetch_all_pool_invariant_witness :
    stateInv [] ∧
    (fetch_all vsW chunkerW "data/pdf" [] ["a.pdf"]).2 = some (["ch"], [[1]]) ∧
    (["ch"] : List String).length = ([[1]] : List (List ℚ)).length ∧
    (∃ es : List Entry,
      ["ch"] = (es.map Entry.chunks).flatten ∧
      [[(1 : ℚ)]] = (es.map Entry.embeddings).flatten ∧
      ∀ x ∈ es, x.chunks.length = x.embeddings.length) :=
  ⟨fun p hp => absurd hp (List.not_mem_nil p), by decide,
   (fetch_all_pool_invariant vsW chunkerW "data/pdf" [] ["a.pdf"] ["ch"] [[1]]
     (fun p hp => absurd hp (List.not_mem_nil p)) (by decide)).1,
   (fetch_all_pool_invariant vsW chunkerW "data/pdf" [] ["a.pdf"] ["ch"] [[1]]
     (fun p hp => absurd hp (List.not_mem_nil p)) (by decide)).2⟩

/-! ## Top-k selection lemmas -/

/-- `pickMax` fails exactly on the empty list. -/
theorem pickMax_eq_none {l : List (Nat × ℚ)} : pickMax l = none ↔ l = [] := by
  cases l with
  | nil => simp [pickMax]
  | cons p ps =>
    rcases h : pickMax ps with _ | ⟨q, rest⟩
    · simp [pickMax, h]
    · constructor
      · intro hc
        simp only [pickMax, h] at hc
        by_cases hlt : p.2 < q.2
        · rw [if_pos hlt] at hc; exact absurd hc (by simp)
        · rw [if_neg hlt] at hc; exact absurd hc (by simp)
      · intro hc; exact absurd hc (by simp)

/-- The pair picked by `pickMax` together with the remainder is a permutation
of the input. -/
theorem pickMax_perm {l : List (Nat × ℚ)} {q : Nat × ℚ} {rest : List (Nat × ℚ)}
    (h : pickMax l = some (q, rest)) : l.Perm (q :: rest) := by
  induction l generalizing q rest with
  | nil => exact absurd h (by simp [pickMax])
  | cons p ps ih =>
    rcases hps : pickMax ps with _ | ⟨⟨q', rest'⟩⟩
    · simp only [pickMax, hps, Option.some.injEq, Prod.mk.injEq] at h
      obtain ⟨rfl, rfl⟩ := h
      exact List.Perm.refl _
    · simp only [pickMax, hps] at h
      by_cases hlt : p.2 < q'.2
      · rw [if_pos hlt] at h
        simp only [Option.some.injEq, Prod.mk.injEq] at h
        obtain ⟨rfl, rfl⟩ := h
        exact ((ih hps).cons p).trans (List.Perm.swap q' p rest')
      · rw [if_neg hlt] at h
        simp only [Option.some.injEq, Prod.mk.injEq] at h
        obtain ⟨rfl, rfl⟩ := h
        exact List.Perm.refl _

/-- The pair picked by `pickMax` holds a maximal score: every remaining score
is at most it. -/
theorem pickMax_le {l : List (Nat × ℚ)} {q : Nat × ℚ} {rest : List (Nat × ℚ)}
    (h : pickMax l = some (q, rest)) : ∀ r ∈ rest, r.2 ≤ q.2 := by
  induction l generalizing q rest with
  | nil => exact absurd h (by simp [pickMax])
  | cons p ps ih =>
    rcases hps : pickMax ps with _ | ⟨⟨q', rest'⟩⟩
    · simp only [pickMax, hps, Option.some.injEq, Prod.mk.injEq] at h
      obtain ⟨rfl, rfl⟩ := h
      rw [pickMax_eq_none.mp hps]
      intro r hr
      exact absurd hr (List.not_mem_nil r)
    · simp only [pickMax, hps] at h
      by_cases hlt : p.2 < q'.2
      · rw [if_pos hlt] at h
        simp only [Option.some.injEq, Prod.mk.injEq] at h
        obtain ⟨rfl, rfl⟩ := h
        intro r hr
        rcases List.mem_cons.mp hr with rfl | hr
        · exact le_of_lt hlt
        · exact ih hps r hr
      · rw [if_neg hlt] at h
        simp only [Option.some.injEq, Prod.mk.injEq] at h
        obtain ⟨rfl, rfl⟩ := h
        intro r hr
        have hr' : r ∈ q' :: rest' := (pickMax_perm hps).mem_iff.mp hr
        rcases List.mem_cons.mp hr' with rfl | hr'
        · exact not_lt.mp hlt
        · exact (ih hps r hr').trans (not_lt.mp hlt)

/-- `topkPairs k` selects `k` pairs when at least `k` are available. -/
theorem topkPairs_length (k : Nat) :
    ∀ l : List (Nat × ℚ), k ≤ l.length → (topkPairs k l).length = k := by
  induction k with
  | zero => intro l _; rfl
  | succ k ih =>
    intro l hk
    rcases hl : pickMax l with _ | ⟨⟨q, rest⟩⟩
    · rw [pickMax_eq_none.mp hl] at hk
      exact absurd hk (by simp)
    · rw [topkPairs, hl]
      have hlen : l.length = rest.length + 1 := (pickMax_perm hl).length_eq
      simp only [List.length_cons]
      rw [ih rest (by omega)]

/-- The selected pairs plus a remainder permute the input, every remainder
score is at most every selected score, and the selected scores descend. -/
theorem topkPairs_spec (k : Nat) :
    ∀ l : List (Nat × ℚ),
      ∃ rem : List (Nat × ℚ),
        l.Perm (topkPairs k l ++ rem) ∧
        (∀ r ∈ rem, ∀ p ∈ topkPairs k l, r.2 ≤ p.2) ∧
        (topkPairs k l).Pairwise (fun a b => b.2 ≤ a.2) := by
  induction k with
  | zero =>
    intro l
    exact ⟨l, by simp [topkPairs], by simp [topkPairs], by simp [topkPairs]⟩
  | succ k ih =>
    intro l
    rcases hl : pickMax l with _ | ⟨⟨q, rest⟩⟩
    · rw [pickMax_eq_none.mp hl]
      exact ⟨[], by simp [topkPairs, pickMax], by simp [topkPairs, pickMax],
        by simp [topkPairs, pickMax]⟩
    · obtain ⟨rem, hperm, hdom, hpair⟩ := ih rest
      rw [topkPairs, hl]
      have hmemrest : ∀ p ∈ topkPairs k rest ++ rem, p ∈ rest :=
        fun p hp => hperm.mem_iff.mpr hp
      refine ⟨rem, ?_, ?_, ?_⟩
      · exact ((pickMax_perm hl).trans (hperm.cons q)).trans
          (List.Perm.refl (q :: (topkPairs k rest ++ rem)))
      · intro r hr p hp
        rcases List.mem_cons.mp hp with rfl | hp
        · exact pickMax_le hl r (hmemrest r (List.mem_append_right _ hr))
        · exact hdom r hr p hp
      · refine List.Pairwise.cons ?_ hpair
        intro p hp
        exact pickMax_le hl p (hmemrest p (List.mem_append_left _ hp))

/-! ## Claims about retrieval -/

/-- C9: `retrieve_top_k` with `k = 0` returns an empty chunk sequence, for
every corpus pool and query. -/
theorem retrieve_top_k_zero (vs : VectorStore) (cos_sim : List ℚ → List ℚ → ℚ)
    (chunks : List String) (embeddings : List (List ℚ)) (query : String) :
    retrieve_top_k vs cos_sim chunks embeddings query 0 = some [] := by
  simp [retrieve_top_k, topkPairs]

/-- C1 counterexample: on a pool of one chunk, `retrieve_top_k` with `k = 2`
raises (`torch.topk` index out of range, modelled `none`) instead of clamping
`k` and returning the whole pool. -/
theorem retrieve_top_k_overflow_counterexample :
    retrieve_top_k vsW (fun _ _ => 0) ["a"] [[1]] "q" 2 = none ∧
    retrieve_top_k vsW (fun _ _ => 0) ["a"] [[1]] "q" 2 ≠ some ["a"] := by
  decide

/-- C1 amended: whenever `k` exceeds the number of embedding rows,
`retrieve_top_k` raises an error (`torch.topk` index out of range, modelled
`none`); it does not clamp `k` to the pool size. -/
theorem retrieve_top_k_overflow (vs : VectorStore) (cos_sim : List ℚ → List ℚ → ℚ)
    (chunks : List String) (embeddings : List (List ℚ)) (query : String)
    (k : Nat) (hk : embeddings.length < k) :
    retrieve_top_k vs cos_sim chunks embeddings query k = none := by
  have hlen : (simScores vs cos_sim embeddings query).length = embeddings.length := by
    simp [simScores]
  simp only [retrieve_top_k]
  rw [if_neg (by omega)]

/-- Witness for the amended C1 at a concrete input. -/
theorem retrieve_top_k_overflow_witness :
    ([[(1 : ℚ)]] : List (List ℚ)).length < 2 ∧
    retrieve_top_k vsW (fun _ _ => (0 : ℚ)) ["a"] [[1]] "q" 2 = none :=
  ⟨by decide,
   retrieve_top_k_overflow vsW (fun _ _ => 0) ["a"] [[1]] "q" 2 (by decide)⟩

/-- Properties of the index list selected by `topk` on an enumerated score
list: `k` distinct valid indices, scores descending along the selection, and
every unselected score at most every selected one. -/
theorem topk_enum_spec (l : List ℚ) (k : Nat) (hk : k ≤ l.length) :
    ((topkPairs k l.enum).map Prod.fst).length = k ∧
    ((topkPairs k l.enum).map Prod.fst).Nodup ∧
    (∀ i ∈ (topkPairs k l.enum).map Prod.fst, i < l.length) ∧
    ((topkPairs k l.enum).map Prod.fst).Pairwise
      (fun i j => l.getD j 0 ≤ l.getD i 0) ∧
    (∀ j, j < l.length → j ∉ (topkPairs k l.enum).map Prod.fst →
      ∀ i ∈ (topkPairs k l.enum).map Prod.fst, l.getD j 0 ≤ l.getD i 0) := by
  obtain ⟨rem, hperm, hdom, hpair⟩ := topkPairs_spec k l.enum
  have hmemenum : ∀ p ∈ topkPairs k l.enum, p ∈ l.enum :=
    fun p hp => hperm.mem_iff.mpr (List.mem_append_left _ hp)
  have hidx : ∀ p ∈ l.enum, p.1 < l.length ∧ l.getD p.1 0 = p.2 := by
    intro p hp
    obtain ⟨hlt, hget⟩ :=
      List.getElem?_eq_some_iff.mp (List.mem_enum_iff_getElem?.mp hp)
    exact ⟨hlt, by rw [List.getD_eq_getElem _ _ hlt, hget]⟩
  refine ⟨?_, ?_, ?_, ?_, ?_⟩
  · rw [List.length_map]
    exact topkPairs_length k l.enum (by rw [List.enum_length]; exact hk)
  · have h1 : (l.enum.map Prod.fst).Nodup := by
      rw [List.enum_map_fst]; exact List.nodup_range _
    have h3 := (hperm.map Prod.fst).nodup_iff.mp h1
    rw [List.map_append] at h3
    exact h3.of_append_left
  · intro i hi
    obtain ⟨p, hp, rfl⟩ := List.mem_map.mp hi
    exact (hidx p (hmemenum p hp)).1
  · rw [List.pairwise_map]
    refine List.Pairwise.imp_of_mem ?_ hpair
    intro a b ha hb hab
    rw [(hidx a (hmemenum a ha)).2, (hidx b (hmemenum b hb)).2]
    exact hab
  · intro j hj hnotin i hi
    obtain ⟨p, hp, rfl⟩ := List.mem_map.mp hi
    have hmem : (j, l[j]) ∈ l.enum :=
      List.mk_mem_enum_iff_getElem?.mpr (List.getElem?_eq_getElem hj)
    rcases List.mem_append.mp (hperm.mem_iff.mp hmem) with hT | hR
    · exact absurd (List.mem_map_of_mem Prod.fst hT) hnotin
    · have := hdom (j, l[j]) hR p hp
      rw [List.getD_eq_getElem _ _ hj, (hidx p (hmemenum p hp)).2]
      exact this

/-- C4: on a pool of matching chunks and embeddings with at least `k` rows,
`retrieve_top_k` embeds the query with the store's own model, scores every
embedding row against the query vector with `cos_sim`, and returns exactly the
chunks at `k` distinct valid indices whose scores are the highest in the pool,
ordered from most to least similar. -/
theorem retrieve_top_k_topk (vs : VectorStore) (cos_sim : List ℚ → List ℚ → ℚ)
    (chunks : List String) (embeddings : List (List ℚ)) (query : String)
    (k : Nat) (hk : k ≤ embeddings.length)
    (hlen : chunks.length = embeddings.length) :
    ∃ sel : List Nat,
      retrieve_top_k vs cos_sim chunks embeddings query k
        = some (sel.map (fun i => chunks.getD i "")) ∧
      sel.length = k ∧ sel.Nodup ∧
      (∀ i ∈ sel, i < chunks.length) ∧
      sel.Pairwise (fun i j =>
        (simScores vs cos_sim embeddings query).getD j 0
          ≤ (simScores vs cos_sim embeddings query).getD i 0) ∧
      (∀ j, j < embeddings.length →
        j ∉ sel → ∀ i ∈ sel,
        (simScores vs cos_sim embeddings query).getD j 0
          ≤ (simScores vs cos_sim embeddings query).getD i 0) := by
  have hslen : (simScores vs cos_sim embeddings query).length = embeddings.length := by
    simp [simScores]
  have hkle : k ≤ (simScores vs cos_sim embeddings query).length := by
    rw [hslen]; exact hk
  obtain ⟨h1, h2, h3, h4, h5⟩ :=
    topk_enum_spec (simScores vs cos_sim embeddings query) k hkle
  refine ⟨(topkPairs k (simScores vs cos_sim embeddings query).enum).map Prod.fst,
    ?_, h1, h2, ?_, h4, ?_⟩
  · simp only [retrieve_top_k]
    rw [if_pos hkle]
  · intro i hi
    rw [hlen, ← hslen]
    exact h3 i hi
  · intro j hj
    exact h5 j (by rw [hslen]; exact hj)

/-- Witness for C4 at a concrete input: three scored rows, `k = 2`. -/
theorem retrieve_top_k_topk_witness :
    2 ≤ ([[1], [3], [2]] : List (List ℚ)).length ∧
    (["c0", "c1", "c2"] : List String).length
      = ([[1], [3], [2]] : List (List ℚ)).length ∧
    ∃ sel : List Nat,
      retrieve_top_k vsW
          headScore
          ["c0", "c1", "c2"] [[1], [3], [2]] "q" 2
        = some (sel.map (fun i => (["c0", "c1", "c2"] : List String).getD i "")) ∧
      sel.length = 2 ∧ sel.Nodup ∧
      (∀ i ∈ sel, i < (["c0", "c1", "c2"] : List String).length) ∧
      sel.Pairwise (fun i j =>
        (simScores vsW headScore
            [[1], [3], [2]] "q").getD j 0
          ≤ (simScores vsW headScore
            [[1], [3], [2]] "q").getD i 0) ∧
      (∀ j, j < ([[1], [3], [2]] : List (List ℚ)).length →
        j ∉ sel → ∀ i ∈ sel,
        (simScores vsW headScore
            [[1], [3], [2]] "q").getD j 0
          ≤ (simScores vsW headScore
            [[1], [3], [2]] "q").getD i 0) :=
  ⟨by decide, by decide,
   retrieve_top_k_topk vsW headScore
     ["c0", "c1", "c2"] [[1], [3], [2]] "q" 2 (by decide) (by decide)⟩

/-- C10: whenever retrieval succeeds with chunks `tops`, `ask` concatenates
`tops` into one context string with a blank line between successive chunks and
returns the answer collaborator's text for `(question, context)` verbatim;
the default `top_k` is 3. -/
theorem ask_spec (rc : RAGChat) (cos_sim : List ℚ → List ℚ → ℚ)
    (query_openrouter : String → String → String) (question : String)
    (top_k : Nat) (tops : List String)
    (h : retrieve_top_k rc.vstore cos_sim rc.chunks rc.embeddings question top_k
      = some tops) :
    rc.ask cos_sim query_openrouter question top_k
      = some (query_openrouter question (String.intercalate "\n\n" tops)) ∧
    rc.ask cos_sim query_openrouter question
      = rc.ask cos_sim query_openrouter question 3 := by
  constructor
  · rw [RAGChat.ask, h]
  · rfl

/-- Witness for C10 at a concrete input: a two-chunk pool, `top_k = 2`. -/
theorem ask_spec_witness :
    retrieve_top_k (RAGChat.mk vsW ["a", "b"] [[1], [2]]).vstore headScore
        (RAGChat.mk vsW ["a", "b"] [[1], [2]]).chunks
        (RAGChat.mk vsW ["a", "b"] [[1], [2]]).embeddings "q" 2
      = some ["b", "a"] ∧
    ((RAGChat.mk vsW ["a", "b"] [[1], [2]]).ask headScore
        (fun q c => q ++ "|" ++ c) "q" 2
      = some ((fun (q c : String) => q ++ "|" ++ c) "q"
          (String.intercalate "\n\n" ["b", "a"])) ∧
     (RAGChat.mk vsW ["a", "b"] [[1], [2]]).ask headScore (fun q c => q ++ "|" ++ c) "q"
      = (RAGChat.mk vsW ["a", "b"] [[1], [2]]).ask headScore
          (fun q c => q ++ "|" ++ c) "q" 3) :=
  ⟨by decide,
   ask_spec (RAGChat.mk vsW ["a", "b"] [[1], [2]]) headScore
     (fun q c => q ++ "|" ++ c) "q" 2 ["b", "a"] (by decide)⟩

end RagBasic
